import Mathlib

/-!
# Verification of the change-detection and decision engine of `hugo-update-lastmod`

Shallow embedding of `bin/hugo-update-lastmod.mjs` (the mtime-based variant with
cache version 2, which is the primary strategy of the specification, plus the
persist step of the hash-based variant with cache version 3 where a claim refers
to it).

JavaScript strings are modelled as `List Char` (`JsStr`); JavaScript objects
used as string-keyed maps are modelled as association lists in insertion order.
Filesystem reads are inputs of the embedded functions; filesystem writes are
outputs.  A JavaScript exception that the source does not catch is modelled by
an `aborted` flag carried in the result (the partial state at the point of the
throw is kept, matching the mutable globals of the script).
-/

set_option autoImplicit false

namespace HugoLastmod

/-- JavaScript strings, modelled as lists of characters. -/
abbrev JsStr := List Char

/-- The whitespace characters recognised by JavaScript's `trim()` and `\s`
(restricted to the ASCII range, which is all this program ever meets). -/
def isJsSpace (c : Char) : Bool :=
  c = ' ' || c = '\t' || c = '\n' || c = '\r' || c = '\x0b' || c = '\x0c'

/-- JavaScript `String.prototype.trim()`: remove leading and trailing
whitespace. -/
def jsTrim (s : JsStr) : JsStr :=
  ((s.dropWhile isJsSpace).reverse.dropWhile isJsSpace).reverse

/-- JavaScript `content.split("\n")`: split at every newline; a trailing
newline yields a final empty piece, and splitting the empty string yields
`[[]]`. -/
def splitNl : JsStr → List JsStr
  | [] => [[]]
  | c :: cs =>
    if c = '\n' then [] :: splitNl cs
    else
      match splitNl cs with
      | [] => [[c]]
      | l :: ls => (c :: l) :: ls

/-- JavaScript `lines.join("\n")`. -/
def joinNl : List JsStr → JsStr
  | [] => []
  | [l] => l
  | l :: ls => l ++ '\n' :: joinNl ls

/-- JavaScript string comparison `a < b`: lexicographic on code units
(our strings are ASCII, where code units and code points agree). -/
def jsStrLt : JsStr → JsStr → Bool
  | [], [] => false
  | [], _ :: _ => true
  | _ :: _, [] => false
  | c :: a, d :: b =>
    if c < d then true
    else if d < c then false
    else jsStrLt a b

/-- The decimal digit character for `d < 10`. -/
def digitChar (d : Nat) : Char := Char.ofNat (48 + d)

/-- Fuel-driven decimal printing of a natural number (most significant digit
first); `natRepr` supplies enough fuel. -/
def natReprCore : Nat → Nat → JsStr
  | 0, _ => []
  | fuel + 1, n =>
    if n < 10 then [digitChar n]
    else natReprCore fuel (n / 10) ++ [digitChar (n % 10)]

/-- Decimal representation of a natural number, as JavaScript's
`String(n)` produces for a non-negative integer. -/
def natRepr (n : Nat) : JsStr := natReprCore (n + 1) n

/-- JavaScript `String(i)` for an integral number. -/
def jsIntRepr (i : Int) : JsStr :=
  if i < 0 then '-' :: natRepr i.natAbs else natRepr i.toNat

/-- The `pad` helper of `formatLocalISO`:
`(n) => String(n).padStart(2, "0")`. -/
def jsPad2 (n : Nat) : JsStr :=
  let s := natRepr n
  if s.length < 2 then '0' :: s else s

/-- The component view of a JavaScript `Date` as read by `formatLocalISO`:
exactly the values returned by `getFullYear`, `getMonth` (0-based),
`getDate`, `getHours`, `getMinutes`, `getSeconds`, `getMilliseconds` and
`getTimezoneOffset` (minutes, positive west of UTC).  Converting an epoch
instant into these local components is done by the JavaScript runtime and is
a collaborator of the program; it enters the embedding as a function
`Int → JsDate`. -/
structure JsDate where
  fullYear : Int
  monthIdx : Nat
  dayOfMonth : Nat
  hours : Nat
  minutes : Nat
  seconds : Nat
  milliseconds : Nat
  timezoneOffset : Int
deriving Repr, DecidableEq

/-- `formatLocalISO(date)` from the source: local-time ISO string with the
local UTC offset, e.g. `2025-11-15T12:43:41+01:00`.  The year is printed
unpadded (`String(year)`); month, day, hours, minutes, seconds and the two
offset fields go through `pad`. -/
def formatLocalISO (date : JsDate) : JsStr :=
  let year := date.fullYear
  let month := jsPad2 (date.monthIdx + 1)
  let day := jsPad2 date.dayOfMonth
  let hour := jsPad2 date.hours
  let minute := jsPad2 date.minutes
  let second := jsPad2 date.seconds
  let offsetMinutes : Int := -date.timezoneOffset
  let sign : Char := if 0 ≤ offsetMinutes then '+' else '-'
  let offAbs := offsetMinutes.natAbs
  let offH := jsPad2 (offAbs / 60)
  let offM := jsPad2 (offAbs % 60)
  jsIntRepr year ++ ('-' :: (month ++ ('-' :: (day ++ ('T' :: (hour ++
    (':' :: (minute ++ (':' :: (second ++ (sign :: (offH ++ (':' :: offM)))))))))))))

/-- `isNewerISO(newVal, currentVal)` from the source: `true` when
`currentVal` is empty (JavaScript falsy) or `newVal > currentVal` as a plain
string comparison. -/
def isNewerISO (newVal currentVal : JsStr) : Bool :=
  if currentVal.isEmpty then true else jsStrLt currentVal newVal

/-- Chronological order of two `Date` component readings that carry the same
UTC offset: lexicographic on the local components down to milliseconds.
(For equal offsets this is exactly the order of the underlying instants.) -/
def chronoBefore (d1 d2 : JsDate) : Bool :=
  if d1.fullYear ≠ d2.fullYear then decide (d1.fullYear < d2.fullYear)
  else if d1.monthIdx ≠ d2.monthIdx then decide (d1.monthIdx < d2.monthIdx)
  else if d1.dayOfMonth ≠ d2.dayOfMonth then decide (d1.dayOfMonth < d2.dayOfMonth)
  else if d1.hours ≠ d2.hours then decide (d1.hours < d2.hours)
  else if d1.minutes ≠ d2.minutes then decide (d1.minutes < d2.minutes)
  else if d1.seconds ≠ d2.seconds then decide (d1.seconds < d2.seconds)
  else decide (d1.milliseconds < d2.milliseconds)

/-- Lexicographic comparison of digit sequences — a specification-side helper
used to state that fixed-width decimal printing preserves order. -/
def lexLtNat : List Nat → List Nat → Bool
  | [], [] => false
  | [], _ :: _ => true
  | _ :: _, [] => false
  | x :: u, y :: v =>
    if x < y then true
    else if y < x then false
    else lexLtNat u v

/-! ## Descriptor editor (`parseFrontmatter`, `buildNewContent`) -/

/-- The frontmatter delimiter.  `FRONTMATTER_DELIM` in the source; the default
configuration value `"---"` (a fixed 3-character delimiter). -/
def delimLine : JsStr := "---".toList

/-- The header key prefix `"lastmod:"` that `parseFrontmatter` and
`buildNewContent` look for with `line.startsWith("lastmod:")`. -/
def lastmodKeyStr : JsStr := "lastmod:".toList

/-- Result record of `parseFrontmatter`:
`{ currentLastmod, fmLines, bodyLines, valid }`. -/
structure Frontmatter where
  currentLastmod : JsStr
  fmLines : List JsStr
  bodyLines : List JsStr
  valid : Bool
deriving Repr, DecidableEq

/-- The `lastmod` extraction loop of `parseFrontmatter`: the first header line
starting with `lastmod:` has that prefix and the following whitespace run
removed (`^lastmod:\s*`), then all double quotes removed (`/"/g`), then is
trimmed; if no such line exists the result is the empty string. -/
def extractLastmod (fmLines : List JsStr) : JsStr :=
  match fmLines.find? (fun l => lastmodKeyStr.isPrefixOf l) with
  | some l =>
      jsTrim (((l.drop lastmodKeyStr.length).dropWhile isJsSpace).filter
        (fun c => c ≠ '"'))
  | none => []

/-- The `fmIdx` computation of `parseFrontmatter`: the indices of all lines
whose trimmed content equals the delimiter (`line.trim() === FRONTMATTER_DELIM`),
in order, starting the count at `i`. -/
def delimIdxs : List JsStr → Nat → List Nat
  | [], _ => []
  | l :: ls, i =>
    if jsTrim l = delimLine then i :: delimIdxs ls (i + 1)
    else delimIdxs ls (i + 1)

/-- `parseFrontmatter(content)` from the source: split into lines, locate the
first two delimiter lines; fewer than two (or a defensive
`fmIdx[1] <= fmIdx[0]`) makes the descriptor invalid with
`{currentLastmod: "", fmLines: [], bodyLines: lines, valid: false}`;
otherwise the header is strictly between the delimiters
(`lines.slice(fmStart + 1, fmEnd)`) and the body everything after
(`lines.slice(fmEnd + 1)`). -/
def parseFrontmatter (content : JsStr) : Frontmatter :=
  let lines := splitNl content
  match delimIdxs lines 0 with
  | i0 :: i1 :: _ =>
    if i1 ≤ i0 then ⟨[], [], lines, false⟩
    else
      let fmLines := (lines.drop (i0 + 1)).take (i1 - (i0 + 1))
      let bodyLines := lines.drop (i1 + 1)
      ⟨extractLastmod fmLines, fmLines, bodyLines, true⟩
  | _ => ⟨[], [], lines, false⟩

/-- The replacement line `lastmod: "${newLastmod}"` that `buildNewContent`
pushes. -/
def lastmodLineFor (newLastmod : JsStr) : JsStr :=
  "lastmod: \"".toList ++ newLastmod ++ ['"']

/-- The header rewriting loop of `buildNewContent`: walk the header lines with
a `replaced` flag, replacing the first line starting with `lastmod:` by the new
`lastmod` line and copying every other line; returns the rewritten lines and
the final value of the flag. -/
def buildFmLoop (newLastmod : JsStr) : List JsStr → Bool → List JsStr × Bool
  | [], replaced => ([], replaced)
  | l :: ls, replaced =>
    if !replaced && lastmodKeyStr.isPrefixOf l then
      let rest := buildFmLoop newLastmod ls true
      (lastmodLineFor newLastmod :: rest.1, rest.2)
    else
      let rest := buildFmLoop newLastmod ls replaced
      (l :: rest.1, rest.2)

/-- The full rewritten header of `buildNewContent`: the loop's output, with the
new `lastmod` line appended when no line was replaced. -/
def mkNewFm (fmLines : List JsStr) (newLastmod : JsStr) : List JsStr :=
  let res := buildFmLoop newLastmod fmLines false
  if res.2 then res.1 else res.1 ++ [lastmodLineFor newLastmod]

/-- `buildNewContent(fmLines, bodyLines, newLastmod)` from the source:
`` `${DELIM}\n` + newFm.join("\n") + `\n${DELIM}\n` + bodyLines.join("\n") ``. -/
def buildNewContent (fmLines bodyLines : List JsStr) (newLastmod : JsStr) : JsStr :=
  delimLine ++ ('\n' :: (joinNl (mkNewFm fmLines newLastmod)
    ++ ('\n' :: (delimLine ++ ('\n' :: joinNl bodyLines)))))

/-! ## Inventory scanner and diff engine -/

/-- One entry of a bundle's image inventory: `{ mtimeMs, size }` as stored in
the version-2 cache.  `mtimeMs` is the file's modification time in epoch
milliseconds. -/
structure ImageEntry where
  mtimeMs : Int
  size : Nat
deriving Repr, DecidableEq

/-- A bundle's inventory: the JavaScript object `{ relPath: entry, ... }`,
modelled as an association list in insertion order (object keys are unique). -/
abbrev Inventory := List (JsStr × ImageEntry)

/-- JavaScript property lookup `obj[key]` on a string-keyed object. -/
def invLookup (inv : Inventory) (key : JsStr) : Option ImageEntry :=
  match inv with
  | [] => none
  | (k, v) :: rest => if k = key then some v else invLookup rest key

/-- `Object.keys` converted to a `Set`, as both key sets of `diffImages` are:
the keys in insertion order (deduplicated). -/
def keysOf (inv : Inventory) : List JsStr := (inv.map Prod.fst).dedup

/-- The `changed` test of `diffImages` for one key present on both sides:
`prev.mtimeMs !== curr.mtimeMs || prev.size !== curr.size`. -/
def entryChanged (prevImages currentImages : Inventory) (key : JsStr) : Bool :=
  match invLookup prevImages key, invLookup currentImages key with
  | some p, some c => p.mtimeMs ≠ c.mtimeMs || p.size ≠ c.size
  | _, _ => false

/-- The `{added, changed, deleted}` record returned by `diffImages`. -/
structure DiffResult where
  added : Nat
  changed : Nat
  deleted : Nat
deriving Repr, DecidableEq

/-- `diffImages(prevImages, currentImages)` from the source: keys only in
`current` count as added; keys on both sides with a differing `mtimeMs` or
`size` count as changed; keys only in `prev` count as deleted. -/
def diffImages (prevImages currentImages : Inventory) : DiffResult :=
  let prevKeys := keysOf prevImages
  let currKeys := keysOf currentImages
  { added := currKeys.countP (fun k => !prevKeys.contains k)
  , changed := currKeys.countP
      (fun k => prevKeys.contains k && entryChanged prevImages currentImages k)
  , deleted := prevKeys.countP (fun k => !currKeys.contains k) }

/-- The per-file loop of `scanImagesForBundle`: for each relative path produced
by `getImageFiles`, `statSync` either yields `{mtimeMs, size}` (`some entry`)
or throws because the file vanished meanwhile (`none`), in which case the entry
is silently skipped. -/
def scanImagesForBundle (files : List (JsStr × Option ImageEntry)) : Inventory :=
  files.filterMap (fun f => f.2.map (fun st => (f.1, st)))

/-- The `maxMtimeMs` loop of `processBundle`: starting from `0`, keep the
larger of the accumulator and each entry's `mtimeMs`. -/
def maxMtimeFold (inv : Inventory) : Int :=
  inv.foldl (fun acc e => if e.2.mtimeMs > acc then e.2.mtimeMs else acc) 0

/-! ## Fingerprint cache and run orchestration -/

/-- `cache.bundles`: bundle identifier (path relative to the project root) to
that bundle's last-known inventory; the `{ images: ... }` wrapper object of the
JSON shape is flattened away. -/
abbrev CacheBundles := List (JsStr × Inventory)

/-- Lookup in `cache.bundles`. -/
def cacheLookup (cb : CacheBundles) (key : JsStr) : Option Inventory :=
  match cb with
  | [] => none
  | (k, v) :: rest => if k = key then some v else cacheLookup rest key

/-- JavaScript assignment `cache.bundles[relDir] = { images }`: overwrite in
place when the key exists, otherwise append (objects keep insertion order). -/
def cacheSet (cb : CacheBundles) (key : JsStr) (v : Inventory) : CacheBundles :=
  match cb with
  | [] => [(key, v)]
  | (k, w) :: rest =>
    if k = key then (k, v) :: rest else (k, w) :: cacheSet rest key v

/-- The `stats` record of `main`. -/
structure Stats where
  totalBundles : Nat
  updatedBundles : Nat
  unchangedBundles : Nat
  noImageBundles : Nat
  totalAdded : Nat
  totalChanged : Nat
  totalDeleted : Nat
deriving Repr, DecidableEq

/-- The initial statistics record of `main` (all zero). -/
def stats0 : Stats := ⟨0, 0, 0, 0, 0, 0, 0⟩

/-- The filesystem face of one bundle directory, as `processBundle` observes
it:
* `relDir` — the bundle path relative to the project root (the cache key);
* `hasIndex` — `existsSync(indexFile)`;
* `scan` — the result of `getImageFiles` plus the per-file `statSync` of
  `scanImagesForBundle`: `none` models `fs.readdir` throwing (the bundle
  directory cannot be listed); a per-file `none` models `statSync` throwing
  (the file vanished between enumeration and fingerprinting);
* `indexRead` — `fs.readFile(indexFile)`: `none` models the read throwing;
* `writeOk` — whether `fs.writeFile(indexFile, ...)` would succeed. -/
structure BundleFs where
  relDir : JsStr
  hasIndex : Bool
  scan : Option (List (JsStr × Option ImageEntry))
  indexRead : Option JsStr
  writeOk : Bool

/-- Result of processing one bundle: the statistics and cache after the call,
the descriptor content written (if any), and whether an uncaught JavaScript
exception escaped `processBundle` (in which case `stats`/`cacheB` hold the
state at the point of the throw and `main` aborts). -/
structure StepResult where
  stats : Stats
  cacheB : CacheBundles
  written : Option JsStr
  aborted : Bool
deriving Repr, DecidableEq

/-- `processBundle(absDir, stats)` from the mtime-based source, line by line:
1. no `index.md` → warn and return;
2. scan the current images (an unlistable directory throws — uncaught);
   zero images → count as no-image bundle, set the cache entry to an empty
   inventory, return;
3. diff against the previous inventory from the cache and add the counts to
   the statistics;
4. compute `maxMtimeMs` (seeded with 0) and format
   `new Date(maxMtimeMs)` via the runtime conversion `dateOfMs`;
5. read `index.md` (a failing read throws — uncaught) and parse the
   frontmatter; invalid frontmatter → still set the cache entry, return;
6. decide with `isNewerISO`; no update → count unchanged; update → count
   updated, and unless `DRY_RUN` write the new content (a failing write
   throws — uncaught, before the cache update);
7. always set the cache entry to the current inventory. -/
def processBundle (dryRun : Bool) (dateOfMs : Int → JsDate) (b : BundleFs)
    (stats : Stats) (cacheB : CacheBundles) : StepResult :=
  if !b.hasIndex then ⟨stats, cacheB, none, false⟩
  else
    match b.scan with
    | none => ⟨stats, cacheB, none, true⟩
    | some files =>
      let currentImages := scanImagesForBundle files
      if currentImages.isEmpty then
        ⟨{ stats with noImageBundles := stats.noImageBundles + 1 },
          cacheSet cacheB b.relDir [], none, false⟩
      else
        let prevImages := (cacheLookup cacheB b.relDir).getD []
        let d := diffImages prevImages currentImages
        let stats1 := { stats with
          totalAdded := stats.totalAdded + d.added,
          totalChanged := stats.totalChanged + d.changed,
          totalDeleted := stats.totalDeleted + d.deleted }
        let newLastmod := formatLocalISO (dateOfMs (maxMtimeFold currentImages))
        match b.indexRead with
        | none => ⟨stats1, cacheB, none, true⟩
        | some raw =>
          let pf := parseFrontmatter raw
          if !pf.valid then
            ⟨stats1, cacheSet cacheB b.relDir currentImages, none, false⟩
          else if !isNewerISO newLastmod pf.currentLastmod then
            ⟨{ stats1 with unchangedBundles := stats1.unchangedBundles + 1 },
              cacheSet cacheB b.relDir currentImages, none, false⟩
          else
            let stats2 := { stats1 with updatedBundles := stats1.updatedBundles + 1 }
            if dryRun then
              ⟨stats2, cacheSet cacheB b.relDir currentImages, none, false⟩
            else if b.writeOk then
              ⟨stats2, cacheSet cacheB b.relDir currentImages,
                some (buildNewContent pf.fmLines pf.bodyLines newLastmod), false⟩
            else ⟨stats2, cacheB, none, true⟩

/-- Accumulated state of `main`'s bundle loop. -/
structure RunAcc where
  stats : Stats
  cacheB : CacheBundles
  aborted : Bool
deriving Repr, DecidableEq

/-- The bundle loop of `main`: count each bundle directory, process it, and
stop (the whole run rejects) at the first uncaught exception. -/
def runBundles (dryRun : Bool) (dateOfMs : Int → JsDate) :
    List BundleFs → Stats → CacheBundles → RunAcc
  | [], s, c => ⟨s, c, false⟩
  | b :: bs, s, c =>
    let s1 := { s with totalBundles := s.totalBundles + 1 }
    let r := processBundle dryRun dateOfMs b s1 c
    if r.aborted then ⟨r.stats, r.cacheB, true⟩
    else runBundles dryRun dateOfMs bs r.stats r.cacheB

/-- The end-of-run cache persist of the mtime-based variant (cache version 2):
the cache file is written unconditionally — "Cache immer speichern – auch bei
DRY_RUN".  `some` carries the bundle map that is serialized to storage. -/
def persistCacheV2 (dryRun : Bool) (bundles : CacheBundles) : Option CacheBundles :=
  some bundles

/-- The end-of-run cache persist of the hash-based variant (cache version 3):
skipped entirely under `DRY_RUN` ("DRY-RUN: Cache-Datei wurde nicht
aktualisiert."), otherwise the full bundle map is written. -/
def persistCacheV3 (dryRun : Bool) (bundles : CacheBundles) : Option CacheBundles :=
  if dryRun then none else some bundles

/-- Observable outcome of a whole run of the mtime-based `main`: final
statistics and in-memory cache, whether `main` resolved (`completed`), and the
cache-file write (`none` means the cache file on storage is untouched, which
happens exactly when the run aborted, since this variant persists even under
`DRY_RUN`). -/
structure RunResult where
  stats : Stats
  cacheB : CacheBundles
  completed : Bool
  persisted : Option CacheBundles
deriving Repr, DecidableEq

/-- `main()` of the mtime-based variant over the bundle directories that the
glob expansion produced: run the bundle loop from zeroed statistics and the
loaded cache, then persist the cache (the run aborts before persisting when a
bundle threw). -/
def runMainA (dryRun : Bool) (dateOfMs : Int → JsDate) (bundles : List BundleFs)
    (cb0 : CacheBundles) : RunResult :=
  let acc := runBundles dryRun dateOfMs bundles stats0 cb0
  ⟨acc.stats, acc.cacheB, !acc.aborted,
    if acc.aborted then none else persistCacheV2 dryRun acc.cacheB⟩

/-- A bundle directory on a healthy filesystem: the directory is listable,
the descriptor is readable and writable.  (The bundle may still have no
`index.md`, no images, vanished files, or an invalid frontmatter.) -/
def CleanFs (b : BundleFs) : Prop :=
  b.scan.isSome = true ∧ b.indexRead.isSome = true ∧ b.writeOk = true

instance (b : BundleFs) : Decidable (CleanFs b) := by
  unfold CleanFs; infer_instance

/-- Component ranges of an ordinary `Date` reading with a four-digit year:
what `new Date(ms)` produces for any instant between the years 1000 and
9999. -/
def InRangeDate (d : JsDate) : Prop :=
  1000 ≤ d.fullYear ∧ d.fullYear ≤ 9999 ∧ d.monthIdx ≤ 11 ∧
    d.dayOfMonth ≤ 31 ∧ d.hours ≤ 23 ∧ d.minutes ≤ 59 ∧ d.seconds ≤ 59

instance (d : JsDate) : Decidable (InRangeDate d) := by
  unfold InRangeDate; infer_instance

/-! ## Concrete run inputs used by counterexamples and witnesses -/

/-- The runtime's epoch-milliseconds → local-components conversion
(`new Date(ms)` read through the component accessors) for a process running in
UTC, evaluated at the instants the concrete inputs of this file use:
`new Date(0)` is 1970-01-01T00:00:00.000 UTC and any negative input here is
`new Date(-1)` = 1969-12-31T23:59:59.999 UTC. -/
def utcStub (ms : Int) : JsDate :=
  if ms < 0 then ⟨1969, 11, 31, 23, 59, 59, 999, 0⟩ else ⟨1970, 0, 1, 0, 0, 0, 0, 0⟩

/-- A small valid descriptor with one extra header field and one body line. -/
def rawA : JsStr :=
  "---\ntitle: x\nlastmod: \"1964-01-01T00:00:00+00:00\"\n---\nbody line".toList

/-- A valid descriptor whose `lastmod` equals the local-ISO rendering of
`new Date(-1)` at second precision. -/
def raw1969 : JsStr :=
  "---\nlastmod: \"1969-12-31T23:59:59+00:00\"\n---\nbody".toList

/-- A healthy bundle: listable, one image, readable and writable descriptor. -/
def bGood : BundleFs :=
  ⟨"content/galleries/g1".toList, true,
    some [("content/galleries/g1/a.jpg".toList, some ⟨0, 5⟩)], some rawA, true⟩

/-- A bundle whose descriptor read fails (`fs.readFile` throws). -/
def bBadRead : BundleFs :=
  ⟨"content/galleries/g2".toList, true,
    some [("content/galleries/g2/b.jpg".toList, some ⟨0, 7⟩)], none, true⟩

/-- A bundle whose directory cannot be listed (`fs.readdir` throws). -/
def bBadScan : BundleFs :=
  ⟨"content/galleries/g3".toList, true, none, some rawA, true⟩

/-- A bundle whose only image has a negative modification time (a file dated
before the epoch), with a descriptor whose `lastmod` already equals the
rendering of that file's mtime. -/
def bNeg : BundleFs :=
  ⟨"content/galleries/g4".toList, true,
    some [("content/galleries/g4/a.jpg".toList, some ⟨-1, 5⟩)], some raw1969, true⟩

/-! ## Basic facts about the string model -/

theorem splitNl_ne_nil (s : JsStr) : splitNl s ≠ [] := by
  induction s with
  | nil => simp [splitNl]
  | cons c cs ih =>
    simp only [splitNl]
    split
    · simp
    · match h : splitNl cs with
      | [] => simp
      | l :: ls => simp

theorem splitNl_no_newline {a : JsStr} (h : '\n' ∉ a) : splitNl a = [a] := by
  induction a with
  | nil => rfl
  | cons c cs ih =>
    simp only [List.mem_cons, not_or] at h
    have hc : ¬c = '\n' := fun hc => h.1 hc.symm
    simp [splitNl, ih h.2, if_neg hc]

theorem splitNl_append {a : JsStr} (r : JsStr) (h : '\n' ∉ a) :
    splitNl (a ++ '\n' :: r) = a :: splitNl r := by
  induction a with
  | nil => simp [splitNl]
  | cons c cs ih =>
    simp only [List.mem_cons, not_or] at h
    have hc : ¬c = '\n' := fun hc => h.1 hc.symm
    simp [splitNl, ih h.2, if_neg hc]

theorem joinNl_cons {l : JsStr} {ls : List JsStr} (h : ls ≠ []) :
    joinNl (l :: ls) = l ++ '\n' :: joinNl ls := by
  cases ls with
  | nil => exact absurd rfl h
  | cons a as => rfl

theorem splitNl_joinNl_append {A : List JsStr} (r : JsStr)
    (hA : ∀ l ∈ A, '\n' ∉ l) (hne : A ≠ []) :
    splitNl (joinNl A ++ '\n' :: r) = A ++ splitNl r := by
  induction A with
  | nil => exact absurd rfl hne
  | cons a as ih =>
    cases as with
    | nil => simpa [joinNl] using splitNl_append r (hA a (by simp))
    | cons b bs =>
      rw [joinNl_cons (by simp), List.append_assoc, List.cons_append]
      rw [splitNl_append _ (hA a (by simp))]
      rw [ih (fun l hl => hA l (by simp [hl])) (by simp)]
      simp

theorem splitNl_joinNl {A : List JsStr} (hA : ∀ l ∈ A, '\n' ∉ l) (hne : A ≠ []) :
    splitNl (joinNl A) = A := by
  induction A with
  | nil => exact absurd rfl hne
  | cons a as ih =>
    cases as with
    | nil => simpa [joinNl] using splitNl_no_newline (hA a (by simp))
    | cons b bs =>
      rw [joinNl_cons (by simp), splitNl_append _ (hA a (by simp))]
      rw [ih (fun l hl => hA l (by simp [hl])) (by simp)]

theorem joinNl_append {A C : List JsStr} (hA : A ≠ []) (hC : C ≠ []) :
    joinNl (A ++ C) = joinNl A ++ '\n' :: joinNl C := by
  induction A with
  | nil => exact absurd rfl hA
  | cons a as ih =>
    cases as with
    | nil => cases C with
      | nil => exact absurd rfl hC
      | cons c cs => simp [joinNl, joinNl_cons]
    | cons b bs =>
      rw [List.cons_append, joinNl_cons (by simp), joinNl_cons (by simp)]
      rw [ih (by simp)]
      simp

/-! ## Trimming and delimiter-index facts -/

theorem jsTrim_delim : jsTrim delimLine = delimLine := by decide

theorem dropWhile_append_singleton {p : Char → Bool} {u : JsStr} {c : Char}
    (hc : p c = false) : ∃ v, (u ++ [c]).dropWhile p = v ++ [c] := by
  induction u with
  | nil => exact ⟨[], by simp [hc]⟩
  | cons x xs ih =>
    by_cases px : p x = true
    · simpa [List.dropWhile_cons, px] using ih
    · exact ⟨x :: xs, by simp [List.dropWhile_cons, px]⟩

theorem jsTrim_cons_of_nonspace {c : Char} {s : JsStr} (hc : isJsSpace c = false) :
    ∃ t, jsTrim (c :: s) = c :: t := by
  unfold jsTrim
  rw [List.dropWhile_cons, if_neg (by simp [hc])]
  obtain ⟨v, hv⟩ := dropWhile_append_singleton (u := s.reverse) (c := c) hc
  rw [List.reverse_cons, hv, List.reverse_append]
  exact ⟨v.reverse, rfl⟩

theorem jsTrim_ne_delim_of_head {c : Char} {s : JsStr}
    (hc : isJsSpace c = false) (hne : c ≠ '-') : jsTrim (c :: s) ≠ delimLine := by
  obtain ⟨t, ht⟩ := jsTrim_cons_of_nonspace (s := s) hc
  rw [ht]
  intro h
  have : c = '-' := by
    have := congrArg (fun l => l.headI) h
    simpa [delimLine] using this
  exact hne this

theorem delimIdxs_append {A : List JsStr} (r : List JsStr) (n : Nat)
    (hA : ∀ l ∈ A, jsTrim l ≠ delimLine) :
    delimIdxs (A ++ r) n = delimIdxs r (n + A.length) := by
  induction A generalizing n with
  | nil => simp [delimIdxs]
  | cons a as ih =>
    rw [List.cons_append, delimIdxs, if_neg (hA a (by simp))]
    rw [ih (n + 1) (fun l hl => hA l (by simp [hl]))]
    congr 1
    simp
    omega

theorem delimIdxs_cons_delim {l : JsStr} {r : List JsStr} {n : Nat}
    (h : jsTrim l = delimLine) : delimIdxs (l :: r) n = n :: delimIdxs r (n + 1) := by
  simp [delimIdxs, h]

/-- Parsing any content whose lines are a (possibly empty) well-behaved prefix,
a delimiter line, well-behaved header lines, a second delimiter line and a
nonempty body: the prefix lines are discarded, the header and body are
recovered exactly. -/
theorem parse_shape (Pre M B : List JsStr)
    (hPre : ∀ l ∈ Pre, '\n' ∉ l ∧ jsTrim l ≠ delimLine)
    (hM : ∀ l ∈ M, '\n' ∉ l ∧ jsTrim l ≠ delimLine)
    (hB : ∀ l ∈ B, '\n' ∉ l) :
    parseFrontmatter (joinNl (Pre ++ (delimLine :: (M ++ (delimLine :: B))))) =
      ⟨extractLastmod M, M, B, true⟩ := by
  have hdelim : ('\n' : Char) ∉ delimLine := by decide
  have hall : ∀ l ∈ Pre ++ (delimLine :: (M ++ (delimLine :: B))), '\n' ∉ l := by
    intro l hl
    rcases List.mem_append.1 hl with h | h
    · exact (hPre l h).1
    rcases List.mem_cons.1 h with rfl | h
    · exact hdelim
    rcases List.mem_append.1 h with h | h
    · exact (hM l h).1
    rcases List.mem_cons.1 h with rfl | h
    · exact hdelim
    · exact hB l h
  have hne : Pre ++ (delimLine :: (M ++ (delimLine :: B))) ≠ [] := by simp
  have hlines : splitNl (joinNl (Pre ++ (delimLine :: (M ++ (delimLine :: B))))) =
      Pre ++ (delimLine :: (M ++ (delimLine :: B))) := splitNl_joinNl hall hne
  have hidx : delimIdxs (Pre ++ (delimLine :: (M ++ (delimLine :: B)))) 0 =
      Pre.length :: ((Pre.length + 1 + M.length) ::
        delimIdxs B (Pre.length + 1 + M.length + 1)) := by
    rw [delimIdxs_append _ 0 (fun l hl => (hPre l hl).2)]
    rw [delimIdxs_cons_delim jsTrim_delim]
    rw [delimIdxs_append _ _ (fun l hl => (hM l hl).2)]
    rw [delimIdxs_cons_delim jsTrim_delim]
    simp only [Nat.zero_add]
  have hdrop1 : (Pre ++ (delimLine :: (M ++ (delimLine :: B)))).drop (Pre.length + 1) =
      M ++ (delimLine :: B) := by
    have hsplit : Pre ++ (delimLine :: (M ++ (delimLine :: B))) =
        (Pre ++ [delimLine]) ++ (M ++ (delimLine :: B)) := by simp
    rw [hsplit, List.drop_left' (by simp)]
  have hdrop2 : (Pre ++ (delimLine :: (M ++ (delimLine :: B)))).drop
      (Pre.length + 1 + M.length + 1) = B := by
    have hsplit : Pre ++ (delimLine :: (M ++ (delimLine :: B))) =
        (Pre ++ (delimLine :: (M ++ [delimLine]))) ++ B := by simp
    rw [hsplit, List.drop_left' (by simp; omega)]
  have htake : Pre.length + 1 + M.length - (Pre.length + 1) = M.length := by omega
  simp only [parseFrontmatter, hlines, hidx]
  rw [if_neg (show ¬(Pre.length + 1 + M.length ≤ Pre.length) by omega)]
  rw [hdrop1, hdrop2, htake, List.take_left]

/-! ## Facts about the header rewriting of `buildNewContent` -/

theorem buildFmLoop_true (X : JsStr) (ls : List JsStr) :
    buildFmLoop X ls true = (ls, true) := by
  induction ls with
  | nil => rfl
  | cons l t ih => simp [buildFmLoop, ih]

theorem buildFmLoop_none (X : JsStr) {ls : List JsStr}
    (h : ∀ l ∈ ls, lastmodKeyStr.isPrefixOf l = false) :
    buildFmLoop X ls false = (ls, false) := by
  induction ls with
  | nil => rfl
  | cons l t ih =>
    simp [buildFmLoop, h l (by simp), ih (fun x hx => h x (by simp [hx]))]

theorem buildFmLoop_replace (X : JsStr) {pre : List JsStr} (l : JsStr)
    (post : List JsStr) (hpre : ∀ x ∈ pre, lastmodKeyStr.isPrefixOf x = false)
    (hl : lastmodKeyStr.isPrefixOf l = true) :
    buildFmLoop X (pre ++ l :: post) false =
      (pre ++ (lastmodLineFor X :: post), true) := by
  induction pre with
  | nil => simp [buildFmLoop, hl, buildFmLoop_true]
  | cons x xs ih =>
    simp only [List.cons_append, buildFmLoop, hpre x (by simp), Bool.not_false,
      Bool.true_and, Bool.false_eq_true, if_false, List.append_eq]
    rw [ih (fun y hy => hpre y (by simp [hy]))]

theorem mkNewFm_of_none {H : List JsStr} (X : JsStr)
    (h : ∀ l ∈ H, lastmodKeyStr.isPrefixOf l = false) :
    mkNewFm H X = H ++ [lastmodLineFor X] := by
  unfold mkNewFm
  rw [buildFmLoop_none X h]
  simp

theorem mkNewFm_of_replace {pre : List JsStr} (X : JsStr) (l : JsStr)
    (post : List JsStr) (hpre : ∀ x ∈ pre, lastmodKeyStr.isPrefixOf x = false)
    (hl : lastmodKeyStr.isPrefixOf l = true) :
    mkNewFm (pre ++ l :: post) X = pre ++ (lastmodLineFor X :: post) := by
  unfold mkNewFm
  rw [buildFmLoop_replace X l post hpre hl]
  simp

theorem exists_first_lastmod {H : List JsStr}
    (h : H.any (fun l => lastmodKeyStr.isPrefixOf l) = true) :
    ∃ pre l post, H = pre ++ l :: post ∧
      (∀ x ∈ pre, lastmodKeyStr.isPrefixOf x = false) ∧
      lastmodKeyStr.isPrefixOf l = true := by
  induction H with
  | nil => simp at h
  | cons a t ih =>
    by_cases ha : lastmodKeyStr.isPrefixOf a = true
    · exact ⟨[], a, t, rfl, by simp, ha⟩
    · have ht : t.any (fun l => lastmodKeyStr.isPrefixOf l) = true := by
        simpa [List.any_cons, ha] using h
      obtain ⟨pre, l, post, heq, hpre, hl⟩ := ih ht
      exact ⟨a :: pre, l, post, by simp [heq], by
        intro x hx
        rcases List.mem_cons.1 hx with rfl | hx
        · exact Bool.eq_false_iff.2 ha
        · exact hpre x hx, hl⟩

theorem mkNewFm_mem {H : List JsStr} {X l : JsStr} (h : l ∈ mkNewFm H X) :
    l ∈ H ∨ l = lastmodLineFor X := by
  have loop : ∀ (ls : List JsStr) (r : Bool), l ∈ (buildFmLoop X ls r).1 →
      l ∈ ls ∨ l = lastmodLineFor X := by
    intro ls
    induction ls with
    | nil => intro r h; simp [buildFmLoop] at h
    | cons a t ih =>
      intro r h
      by_cases hc : (!r && lastmodKeyStr.isPrefixOf a) = true
      · rw [buildFmLoop, if_pos hc] at h
        rcases List.mem_cons.1 h with rfl | h
        · exact Or.inr rfl
        · rw [buildFmLoop_true] at h
          exact Or.inl (by simp [h])
      · rw [buildFmLoop, if_neg hc] at h
        rcases List.mem_cons.1 h with rfl | h
        · exact Or.inl (by simp)
        · rcases ih r h with h | h
          · exact Or.inl (by simp [h])
          · exact Or.inr h
  unfold mkNewFm at h
  by_cases hr : (buildFmLoop X H false).2 = true
  · rw [if_pos hr] at h
    exact loop H false h
  · rw [if_neg hr] at h
    rcases List.mem_append.1 h with h | h
    · exact loop H false h
    · exact Or.inr (by simpa using h)

theorem buildFmLoop_fst_length (X : JsStr) (ls : List JsStr) :
    ∀ r, (buildFmLoop X ls r).1.length = ls.length := by
  induction ls with
  | nil => intro r; rfl
  | cons a t ih =>
    intro r
    by_cases hc : (!r && lastmodKeyStr.isPrefixOf a) = true
    · simp only [buildFmLoop, if_pos hc, List.length_cons, ih]
    · simp only [buildFmLoop, if_neg hc, List.length_cons, ih]

theorem mkNewFm_ne_nil (H : List JsStr) (X : JsStr) : mkNewFm H X ≠ [] := by
  have hlen := buildFmLoop_fst_length X H false
  unfold mkNewFm
  rcases hf : buildFmLoop X H false with ⟨fst, snd⟩
  rw [hf] at hlen
  simp only at hlen
  cases snd with
  | true =>
    simp only [if_true]
    intro hcontra
    rw [hcontra] at hlen
    have hH : H = [] := List.length_eq_zero.1 hlen.symm
    rw [hH] at hf
    simp [buildFmLoop] at hf
  | false => simp

theorem lastmodLineFor_head (X : JsStr) :
    lastmodLineFor X = 'l' :: ("astmod: \"".toList ++ (X ++ ['"'])) := by
  simp [lastmodLineFor]

theorem lastmodLineFor_key (X : JsStr) :
    lastmodLineFor X = lastmodKeyStr ++ (' ' :: ('"' :: (X ++ ['"']))) := by
  simp [lastmodLineFor, lastmodKeyStr]

theorem isPrefixOf_lastmodLineFor (X : JsStr) :
    lastmodKeyStr.isPrefixOf (lastmodLineFor X) = true := by
  rw [lastmodLineFor_key, List.isPrefixOf_iff_prefix]
  exact ⟨_, rfl⟩

theorem newline_not_mem_lastmodLineFor {X : JsStr} (hX : '\n' ∉ X) :
    '\n' ∉ lastmodLineFor X := by
  intro h
  rw [lastmodLineFor_head] at h
  rcases List.mem_cons.1 h with h | h
  · exact absurd h (by decide)
  rcases List.mem_append.1 h with h | h
  · exact absurd h (by decide)
  rcases List.mem_append.1 h with h | h
  · exact hX h
  · exact absurd h (by decide)

theorem jsTrim_lastmodLineFor_ne_delim (X : JsStr) :
    jsTrim (lastmodLineFor X) ≠ delimLine := by
  rw [lastmodLineFor_head]
  exact jsTrim_ne_delim_of_head (by decide) (by decide)

theorem find?_append_of_none {p : JsStr → Bool} {u : List JsStr} (v : List JsStr)
    (h : ∀ x ∈ u, p x = false) : (u ++ v).find? p = v.find? p := by
  induction u with
  | nil => rfl
  | cons a t ih =>
    rw [List.cons_append, List.find?_cons_of_neg _ (by simp [h a (by simp)])]
    exact ih (fun x hx => h x (by simp [hx]))

/-- Extracting the `lastmod` value back out of the freshly rendered
`lastmod: "X"` line: the `lastmod:` prefix and the whitespace run go, both
quotes go, and trimming leaves `X` unchanged when `X` is its own trim. -/
theorem extract_lastmodLineFor {X : JsStr} (hq : '"' ∉ X) (ht : jsTrim X = X) :
    jsTrim ((((lastmodLineFor X).drop lastmodKeyStr.length).dropWhile
      isJsSpace).filter (fun c => c ≠ '"')) = X := by
  rw [lastmodLineFor_key, List.drop_left' rfl]
  rw [List.dropWhile_cons, if_pos (by decide), List.dropWhile_cons,
    if_neg (by decide)]
  have hfX : X.filter (fun c => c ≠ '"') = X :=
    List.filter_eq_self.2 (fun c hc => by
      simp only [ne_eq, decide_eq_true_eq]
      exact fun hcq => hq (hcq ▸ hc))
  simp only [List.filter_cons, List.filter_append, hfX]
  norm_num
  exact ht

theorem extractLastmod_mkNewFm (H : List JsStr) {X : JsStr}
    (hq : '"' ∉ X) (ht : jsTrim X = X) :
    extractLastmod (mkNewFm H X) = X := by
  by_cases hany : H.any (fun l => lastmodKeyStr.isPrefixOf l) = true
  · obtain ⟨pre, l, post, rfl, hpre, hl⟩ := exists_first_lastmod hany
    rw [mkNewFm_of_replace X l post hpre hl]
    unfold extractLastmod
    rw [find?_append_of_none _ hpre,
      List.find?_cons_of_pos _ (isPrefixOf_lastmodLineFor X)]
    exact extract_lastmodLineFor hq ht
  · have hnone : ∀ l ∈ H, lastmodKeyStr.isPrefixOf l = false := by
      intro l hl
      exact Bool.eq_false_iff.2 (List.any_eq_false.1 (Bool.eq_false_iff.2 hany) l hl)
    rw [mkNewFm_of_none X hnone]
    unfold extractLastmod
    rw [find?_append_of_none _ hnone,
      List.find?_cons_of_pos _ (isPrefixOf_lastmodLineFor X)]
    exact extract_lastmodLineFor hq ht

/-- Every line of the rewritten header is well behaved: no newline, and its
trim is not the delimiter. -/
theorem mkNewFm_lines_ok {H : List JsStr} {X : JsStr}
    (hH : ∀ l ∈ H, '\n' ∉ l ∧ jsTrim l ≠ delimLine) (hX : '\n' ∉ X) :
    ∀ l ∈ mkNewFm H X, '\n' ∉ l ∧ jsTrim l ≠ delimLine := by
  intro l hl
  rcases mkNewFm_mem hl with h | rfl
  · exact hH l h
  · exact ⟨newline_not_mem_lastmodLineFor hX, jsTrim_lastmodLineFor_ne_delim X⟩

/-- The rendered descriptor is the join of the line list
`delimiter, new header lines, delimiter, body lines` (for a nonempty body). -/
theorem buildNewContent_eq_joinNl (H B : List JsStr) (X : JsStr) (hB : B ≠ []) :
    buildNewContent H B X =
      joinNl (delimLine :: (mkNewFm H X ++ (delimLine :: B))) := by
  rw [joinNl_cons (by simp), joinNl_append (mkNewFm_ne_nil H X) (by simp),
    joinNl_cons hB]
  rfl

/-- Rendering with an empty body is character-identical to rendering with one
empty body line (both join to the empty string after the closing
delimiter). -/
theorem buildNewContent_nil_body (H : List JsStr) (X : JsStr) :
    buildNewContent H [] X = buildNewContent H [[]] X := rfl

/-! ## Descriptor editor claims: C6, C7, C9 -/

/-- **C6** (counterexample).  The round-trip claim fails as stated: the value
`X = " "` (a single space) contains no newline and no double quote, the
header/body pair `([], ["body"])` is valid, yet parsing the rendered text
yields `currentLastmod = ""` ≠ `" "`, because the parser strips the
whitespace run after `lastmod:` and trims the extracted value. -/
theorem c6_counterexample :
    ('\n' ∉ ([' '] : JsStr)) ∧ ('"' ∉ ([' '] : JsStr)) ∧
      (parseFrontmatter (buildNewContent [] ["body".toList] [' '])).currentLastmod
        ≠ [' '] := by
  decide

/-- **C6** (corrected).  Round-trip of the `lastmod` value, amended by the
condition the code forces: for every valid header/body pair (no newlines
inside lines, no header line trimming to the delimiter) and every `X` that
contains no newline and no double quote *and equals its own trim*, parsing
`render(header, body, X)` yields `currentLastmod = X`. -/
theorem c6_lastmod_roundtrip (H B : List JsStr) (X : JsStr)
    (hH : ∀ l ∈ H, '\n' ∉ l ∧ jsTrim l ≠ delimLine)
    (hB : ∀ l ∈ B, '\n' ∉ l)
    (hXn : '\n' ∉ X) (hXq : '"' ∉ X) (hXt : jsTrim X = X) :
    (parseFrontmatter (buildNewContent H B X)).currentLastmod = X := by
  have key : ∀ (B' : List JsStr), (∀ l ∈ B', '\n' ∉ l) → B' ≠ [] →
      (parseFrontmatter (buildNewContent H B' X)).currentLastmod = X := by
    intro B' hB' hne
    rw [buildNewContent_eq_joinNl H B' X hne]
    have hp := parse_shape [] (mkNewFm H X) B' (by simp)
      (mkNewFm_lines_ok hH hXn) hB'
    rw [List.nil_append] at hp
    rw [hp]
    exact extractLastmod_mkNewFm H hXq hXt
  by_cases hBe : B = []
  · subst hBe
    rw [buildNewContent_nil_body]
    exact key [[]] (by simp) (by simp)
  · exact key B hB hBe

/-- **C6** witness: the amended round-trip evaluated on a concrete header,
body and timestamp value. -/
theorem c6_witness :
    (parseFrontmatter (buildNewContent ["title: x".toList] ["body".toList]
        "2024-05-01T10:00:00+02:00".toList)).currentLastmod =
      "2024-05-01T10:00:00+02:00".toList :=
  c6_lastmod_roundtrip _ _ _ (by decide) (by decide) (by decide) (by decide)
    (by decide)

/-- **C7** (confirmed).  Render preserves everything except the `lastmod`
field: for a valid header (no newlines, no line trimming to the delimiter), a
nonempty body with newline-free lines and a newline-free new value, the
rendered text parses back with exactly the rewritten header and the body
verbatim; the rewritten header keeps every non-`lastmod` line unchanged in
order, and either replaces exactly the first `lastmod` line or (when none
exists) appends one at the end of the header block. -/
theorem c7_render_preserves (H B : List JsStr) (X : JsStr)
    (hH : ∀ l ∈ H, '\n' ∉ l ∧ jsTrim l ≠ delimLine)
    (hB : ∀ l ∈ B, '\n' ∉ l) (hBne : B ≠ []) (hXn : '\n' ∉ X) :
    (parseFrontmatter (buildNewContent H B X)).valid = true ∧
    (parseFrontmatter (buildNewContent H B X)).bodyLines = B ∧
    (parseFrontmatter (buildNewContent H B X)).fmLines = mkNewFm H X ∧
    (mkNewFm H X).filter (fun l => !(lastmodKeyStr.isPrefixOf l)) =
      H.filter (fun l => !(lastmodKeyStr.isPrefixOf l)) ∧
    (if H.any (fun l => lastmodKeyStr.isPrefixOf l) = true then
      ∃ pre l post, H = pre ++ l :: post ∧
        (∀ x ∈ pre, lastmodKeyStr.isPrefixOf x = false) ∧
        lastmodKeyStr.isPrefixOf l = true ∧
        mkNewFm H X = pre ++ (lastmodLineFor X :: post)
     else mkNewFm H X = H ++ [lastmodLineFor X]) := by
  have hparse : parseFrontmatter (buildNewContent H B X) =
      ⟨extractLastmod (mkNewFm H X), mkNewFm H X, B, true⟩ := by
    rw [buildNewContent_eq_joinNl H B X hBne]
    have hp := parse_shape [] (mkNewFm H X) B (by simp)
      (mkNewFm_lines_ok hH hXn) hB
    rw [List.nil_append] at hp
    exact hp
  refine ⟨by rw [hparse], by rw [hparse], by rw [hparse], ?_, ?_⟩
  · by_cases hany : H.any (fun l => lastmodKeyStr.isPrefixOf l) = true
    · obtain ⟨pre, l, post, heq, hpre, hl⟩ := exists_first_lastmod hany
      rw [heq, mkNewFm_of_replace X l post hpre hl]
      simp [List.filter_append, List.filter_cons, hl, isPrefixOf_lastmodLineFor]
    · have hnone : ∀ l ∈ H, lastmodKeyStr.isPrefixOf l = false := fun l hl =>
        Bool.eq_false_iff.2 (List.any_eq_false.1 (Bool.eq_false_iff.2 hany) l hl)
      rw [mkNewFm_of_none X hnone]
      simp [List.filter_append, List.filter_cons, isPrefixOf_lastmodLineFor]
  · by_cases hany : H.any (fun l => lastmodKeyStr.isPrefixOf l) = true
    · rw [if_pos hany]
      obtain ⟨pre, l, post, heq, hpre, hl⟩ := exists_first_lastmod hany
      exact ⟨pre, l, post, heq, hpre, hl, by
        rw [heq, mkNewFm_of_replace X l post hpre hl]⟩
    · rw [if_neg hany]
      have hnone : ∀ l ∈ H, lastmodKeyStr.isPrefixOf l = false := fun l hl =>
        Bool.eq_false_iff.2 (List.any_eq_false.1 (Bool.eq_false_iff.2 hany) l hl)
      exact mkNewFm_of_none X hnone

/-- **C7** witness: the body and the non-`lastmod` header line of a concrete
descriptor survive a render unchanged. -/
theorem c7_witness :
    (parseFrontmatter (buildNewContent
        ["title: x".toList, "lastmod: \"old\"".toList] ["body".toList]
        "NEW".toList)).bodyLines = ["body".toList] ∧
    (mkNewFm ["title: x".toList, "lastmod: \"old\"".toList] "NEW".toList).filter
        (fun l => !(lastmodKeyStr.isPrefixOf l)) =
      (["title: x".toList, "lastmod: \"old\"".toList] : List JsStr).filter
        (fun l => !(lastmodKeyStr.isPrefixOf l)) :=
  ⟨(c7_render_preserves _ _ _ (by decide) (by decide) (by decide)
      (by decide)).2.1,
    (c7_render_preserves ["title: x".toList, "lastmod: \"old\"".toList]
      ["body".toList] "NEW".toList (by decide) (by decide) (by decide)
      (by decide)).2.2.2.1⟩

/-- **C9** (confirmed, implicit claim).  Parse-then-render discards any
content before the first delimiter line: for a valid descriptor whose lines
are a nonempty well-behaved prefix, a delimiter, the header, a delimiter and
the body, parsing gives the same result as for the descriptor without the
prefix (the prefix lines appear in neither `fmLines` nor `bodyLines`), and
the rendered output begins with the delimiter line. -/
theorem c9_prefix_discarded (P M B : List JsStr) (X : JsStr)
    (hPne : P ≠ [])
    (hP : ∀ l ∈ P, '\n' ∉ l ∧ jsTrim l ≠ delimLine)
    (hM : ∀ l ∈ M, '\n' ∉ l ∧ jsTrim l ≠ delimLine)
    (hB : ∀ l ∈ B, '\n' ∉ l) :
    parseFrontmatter (joinNl (P ++ (delimLine :: (M ++ (delimLine :: B))))) =
      parseFrontmatter (joinNl (delimLine :: (M ++ (delimLine :: B)))) ∧
    (parseFrontmatter (joinNl (P ++ (delimLine :: (M ++ (delimLine :: B)))))).fmLines
      = M ∧
    (parseFrontmatter (joinNl (P ++ (delimLine :: (M ++ (delimLine :: B)))))).bodyLines
      = B ∧
    (∃ t, buildNewContent
        (parseFrontmatter (joinNl (P ++ (delimLine :: (M ++ (delimLine :: B)))))).fmLines
        (parseFrontmatter (joinNl (P ++ (delimLine :: (M ++ (delimLine :: B)))))).bodyLines
        X = delimLine ++ ('\n' :: t)) := by
  have _hPne := hPne
  have h1 := parse_shape P M B hP hM hB
  have h2 := parse_shape [] M B (by simp) hM hB
  rw [List.nil_append] at h2
  refine ⟨h1.trans h2.symm, by rw [h1], by rw [h1], ?_⟩
  rw [h1]
  exact ⟨_, rfl⟩

/-- **C9** witness: a concrete descriptor with one junk line before the first
delimiter parses to the same header and body as without it. -/
theorem c9_witness :
    (parseFrontmatter (joinNl (["junk".toList] ++ (delimLine ::
        (["k: v".toList] ++ (delimLine :: ["b".toList])))))).fmLines =
      ["k: v".toList] :=
  (c9_prefix_discarded ["junk".toList] ["k: v".toList] ["b".toList]
    "T".toList (by decide) (by decide) (by decide) (by decide)).2.1

/-! ## Diff engine: C8 -/

/-- **C8** (confirmed).  Diff symmetry under argument swap: for all
inventories `A` and `B`, `diff(A, B).added = diff(B, A).deleted` and
`diff(A, B).deleted = diff(B, A).added` — both count exactly the keys present
on one side and not the other. -/
theorem c8_diff_swap_symmetry (A B : Inventory) :
    (diffImages A B).added = (diffImages B A).deleted ∧
      (diffImages A B).deleted = (diffImages B A).added :=
  ⟨rfl, rfl⟩

/-! ## Per-bundle processing and cache facts -/

theorem processBundle_no_index {b : BundleFs} (dryRun : Bool)
    (dateOfMs : Int → JsDate) (s : Stats) (cb : CacheBundles)
    (h : b.hasIndex = false) :
    processBundle dryRun dateOfMs b s cb = ⟨s, cb, none, false⟩ := by
  unfold processBundle
  rw [h]
  rfl

theorem processBundle_scan_err {b : BundleFs} (dryRun : Bool)
    (dateOfMs : Int → JsDate) (s : Stats) (cb : CacheBundles)
    (h1 : b.hasIndex = true) (h2 : b.scan = none) :
    processBundle dryRun dateOfMs b s cb = ⟨s, cb, none, true⟩ := by
  unfold processBundle
  rw [h1, h2]
  rfl

/-- On a healthy filesystem (index present, directory listable, descriptor
readable and writable) the processing of one bundle never aborts and always
ends by setting the bundle's cache entry to its current inventory — in every
terminal state (no images, invalid frontmatter, unchanged, updated, dry-run
or not). -/
theorem processBundle_clean {b : BundleFs} (dryRun : Bool)
    (dateOfMs : Int → JsDate) (s : Stats) (cb : CacheBundles)
    {files : List (JsStr × Option ImageEntry)} {raw : JsStr}
    (h1 : b.hasIndex = true) (h2 : b.scan = some files)
    (h3 : b.indexRead = some raw) (h4 : b.writeOk = true) :
    (processBundle dryRun dateOfMs b s cb).cacheB =
      cacheSet cb b.relDir (scanImagesForBundle files) ∧
    (processBundle dryRun dateOfMs b s cb).aborted = false := by
  rcases b with ⟨rel, hi, sc, ir, wo⟩
  simp only at h1 h2 h3 h4
  subst h1 h2 h3 h4
  simp only [processBundle, Bool.not_true, Bool.false_eq_true, if_false]
  by_cases hemp : (scanImagesForBundle files).isEmpty = true
  · simp [hemp, List.isEmpty_iff.1 hemp]
  · simp only [hemp, Bool.false_eq_true, if_false]
    split_ifs <;> simp

theorem processBundle_not_aborted {b : BundleFs} (dryRun : Bool)
    (dateOfMs : Int → JsDate) (s : Stats) (cb : CacheBundles) (h : CleanFs b) :
    (processBundle dryRun dateOfMs b s cb).aborted = false := by
  obtain ⟨files, hf⟩ := Option.isSome_iff_exists.1 h.1
  obtain ⟨raw, hr⟩ := Option.isSome_iff_exists.1 h.2.1
  by_cases hi : b.hasIndex = true
  · exact (processBundle_clean dryRun dateOfMs s cb hi hf hr h.2.2).2
  · rw [processBundle_no_index dryRun dateOfMs s cb (Bool.eq_false_iff.2 hi)]

/-- Processing one bundle either leaves the cache map alone or overwrites /
inserts the entry of that bundle's own key — it never touches another key and
never removes one. -/
theorem processBundle_cache_cases (dryRun : Bool) (dateOfMs : Int → JsDate)
    (b : BundleFs) (s : Stats) (cb : CacheBundles) :
    (processBundle dryRun dateOfMs b s cb).cacheB = cb ∨
      ∃ v, (processBundle dryRun dateOfMs b s cb).cacheB =
        cacheSet cb b.relDir v := by
  rcases b with ⟨rel, hi, sc, ir, wo⟩
  cases hi with
  | false => exact Or.inl rfl
  | true =>
    cases sc with
    | none => exact Or.inl rfl
    | some files =>
      simp only [processBundle, Bool.not_true, Bool.false_eq_true, if_false]
      by_cases hemp : (scanImagesForBundle files).isEmpty = true
      · simp only [hemp, if_true]
        exact Or.inr ⟨[], rfl⟩
      · simp only [hemp, Bool.false_eq_true, if_false]
        cases ir with
        | none => exact Or.inl rfl
        | some raw =>
          simp only
          split_ifs <;> first
            | exact Or.inl rfl
            | exact Or.inr ⟨scanImagesForBundle files, rfl⟩

theorem cacheLookup_cacheSet_ne (cb : CacheBundles) (key : JsStr)
    (v : Inventory) {k : JsStr} (h : k ≠ key) :
    cacheLookup (cacheSet cb key v) k = cacheLookup cb k := by
  induction cb with
  | nil =>
    simp only [cacheSet, cacheLookup]
    rw [if_neg (fun he : key = k => h he.symm)]
  | cons e rest ih =>
    rcases e with ⟨k0, w0⟩
    by_cases h0 : k0 = key
    · subst h0
      simp only [cacheSet, if_pos rfl, cacheLookup]
      rw [if_neg (fun he : k0 = k => h (he ▸ rfl))]
      rw [if_neg (fun he : k0 = k => h (he ▸ rfl))]
    · simp only [cacheSet, if_neg h0, cacheLookup]
      split
      · rfl
      · exact ih

theorem cacheLookup_cacheSet_isSome (cb : CacheBundles) (key : JsStr)
    (v : Inventory) {k : JsStr}
    (h : (cacheLookup cb k).isSome = true) :
    (cacheLookup (cacheSet cb key v) k).isSome = true := by
  induction cb with
  | nil => simp [cacheLookup] at h
  | cons e rest ih =>
    rcases e with ⟨k0, w0⟩
    by_cases h0 : k0 = key
    · subst h0
      simp only [cacheSet, if_pos rfl, cacheLookup] at h ⊢
      by_cases hk : k0 = k
      · simp [hk]
      · rw [if_neg hk] at h ⊢
        exact h
    · simp only [cacheSet, if_neg h0, cacheLookup] at h ⊢
      by_cases hk : k0 = k
      · simp [hk]
      · rw [if_neg hk] at h ⊢
        exact ih h

/-! ## Run-level facts -/

theorem runBundles_clean (dryRun : Bool) (dateOfMs : Int → JsDate) :
    ∀ (bs : List BundleFs) (s : Stats) (c : CacheBundles),
      (∀ b ∈ bs, CleanFs b) →
      (runBundles dryRun dateOfMs bs s c).aborted = false := by
  intro bs
  induction bs with
  | nil => intro s c _; rfl
  | cons b t ih =>
    intro s c h
    simp only [runBundles]
    rw [processBundle_not_aborted dryRun dateOfMs _ c (h b (by simp))]
    simp only [Bool.false_eq_true, if_false]
    exact ih _ _ (fun x hx => h x (by simp [hx]))

theorem runBundles_abort (dryRun : Bool) (dateOfMs : Int → JsDate) :
    ∀ (pre : List BundleFs) (b : BundleFs) (post : List BundleFs) (s : Stats)
      (c : CacheBundles), (∀ x ∈ pre, CleanFs x) → b.hasIndex = true →
      b.scan = none →
      (runBundles dryRun dateOfMs (pre ++ b :: post) s c).aborted = true := by
  intro pre
  induction pre with
  | nil =>
    intro b post s c _ h1 h2
    simp only [List.nil_append, runBundles]
    rw [processBundle_scan_err dryRun dateOfMs _ c h1 h2]
    simp
  | cons x t ih =>
    intro b post s c h h1 h2
    simp only [List.cons_append, runBundles]
    rw [processBundle_not_aborted dryRun dateOfMs _ c (h x (by simp))]
    simp only [Bool.false_eq_true, if_false]
    exact ih b post _ _ (fun y hy => h y (by simp [hy])) h1 h2

theorem runBundles_cache_lookup (dryRun : Bool) (dateOfMs : Int → JsDate)
    (k : JsStr) : ∀ (bs : List BundleFs) (s : Stats) (c : CacheBundles),
    (k ∉ bs.map BundleFs.relDir →
      cacheLookup (runBundles dryRun dateOfMs bs s c).cacheB k = cacheLookup c k) ∧
    ((cacheLookup c k).isSome = true →
      (cacheLookup (runBundles dryRun dateOfMs bs s c).cacheB k).isSome = true) := by
  intro bs
  induction bs with
  | nil => intro s c; exact ⟨fun _ => rfl, fun h => h⟩
  | cons b t ih =>
    intro s c
    simp only [runBundles]
    have hstep : (k ≠ b.relDir →
        cacheLookup (processBundle dryRun dateOfMs b
          { s with totalBundles := s.totalBundles + 1 } c).cacheB k =
          cacheLookup c k) ∧
        ((cacheLookup c k).isSome = true →
          (cacheLookup (processBundle dryRun dateOfMs b
            { s with totalBundles := s.totalBundles + 1 } c).cacheB k).isSome
            = true) := by
      rcases processBundle_cache_cases dryRun dateOfMs b
        { s with totalBundles := s.totalBundles + 1 } c with hc | ⟨v, hc⟩
      · rw [hc]; exact ⟨fun _ => rfl, fun h => h⟩
      · rw [hc]
        exact ⟨fun hne => cacheLookup_cacheSet_ne c _ v hne,
          fun h => cacheLookup_cacheSet_isSome c _ v h⟩
    split
    · constructor
      · intro hk
        exact hstep.1 (by simp at hk; exact fun he => hk.1 he)
      · exact hstep.2
    · constructor
      · intro hk
        simp only [List.map_cons, List.mem_cons, not_or] at hk
        rw [(ih _ _).1 (by simpa using hk.2)]
        exact hstep.1 hk.1
      · intro h
        exact (ih _ _).2 (hstep.2 h)

/-! ## Orchestration claims: C1, C2, C3, C10 -/

/-- **C1** (counterexample).  A dry run of the mtime-based variant with a
pending update: the statistics count the update, but the end-of-run cache
persist is *not* skipped — the cache file is written ("Cache immer speichern –
auch bei DRY_RUN"). -/
theorem c1_counterexample :
    (runMainA true utcStub [bGood] []).persisted ≠ none ∧
    (runMainA true utcStub [bGood] []).stats.updatedBundles = 1 := by
  decide

/-- **C1** (corrected).  Dry-run cache behaviour, split by variant: the
hash-based variant (cache version 3) skips the end-of-run persist entirely
under dry-run; the mtime-based variant (cache version 2) persists
unconditionally, even under dry-run; in both, the in-memory cache update of a
processed bundle is identical with and without the dry-run flag (when the
descriptor is writable, so that a real run does not abort). -/
theorem c1_dry_run_persist :
    (∀ cb : CacheBundles, persistCacheV3 true cb = none) ∧
    (∀ cb : CacheBundles, persistCacheV2 true cb = some cb) ∧
    (∀ (dateOfMs : Int → JsDate) (b : BundleFs) (s : Stats) (cb : CacheBundles),
      b.writeOk = true →
      (processBundle true dateOfMs b s cb).cacheB =
        (processBundle false dateOfMs b s cb).cacheB) := by
  refine ⟨fun _ => rfl, fun _ => rfl, ?_⟩
  intro dateOfMs b s cb hw
  rcases b with ⟨rel, hi, sc, ir, wo⟩
  simp only at hw
  subst hw
  cases hi with
  | false => rfl
  | true =>
    cases sc with
    | none => rfl
    | some files =>
      simp only [processBundle]
      by_cases hemp : (scanImagesForBundle files).isEmpty = true
      · simp [hemp]
      · simp only [hemp, Bool.false_eq_true, if_false]
        cases ir with
        | none => rfl
        | some raw =>
          simp only
          split_ifs <;> rfl

/-- **C1** witness: both persist steps and the in-memory equality evaluated on
concrete inputs. -/
theorem c1_witness :
    persistCacheV3 true [] = none ∧ persistCacheV2 true [] = some [] ∧
    (processBundle true utcStub bGood stats0 []).cacheB =
      (processBundle false utcStub bGood stats0 []).cacheB :=
  ⟨c1_dry_run_persist.1 [], c1_dry_run_persist.2.1 [],
    c1_dry_run_persist.2.2 utcStub bGood stats0 [] rfl⟩

/-- **C2** (counterexample).  Per-bundle errors are *not* isolated: with a
first bundle whose descriptor read fails and a healthy second bundle, the run
aborts at the first bundle — `main` rejects, the statistics footer never
prints, the cache is not persisted, and the second bundle is never processed
(`totalBundles` stops at 1). -/
theorem c2_counterexample :
    (runMainA false utcStub [bBadRead, bGood] []).completed = false ∧
    (runMainA false utcStub [bBadRead, bGood] []).persisted = none ∧
    (runMainA false utcStub [bBadRead, bGood] []).stats.totalBundles = 1 := by
  decide

/-- **C2** (corrected).  Error isolation, as the code actually behaves:
(1) when every bundle directory is listable and every descriptor readable and
writable, the run completes and persists the cache — bundles with a missing
`index.md`, vanished files or invalid frontmatter are isolated and do not
abort it; (2) but an unlistable bundle directory (and likewise an unreadable
or unwritable descriptor) raises an uncaught exception that aborts the whole
run: no statistics, no cache persist. -/
theorem c2_error_isolation :
    (∀ (dryRun : Bool) (dateOfMs : Int → JsDate) (bundles : List BundleFs)
        (cb0 : CacheBundles), (∀ b ∈ bundles, CleanFs b) →
        (runMainA dryRun dateOfMs bundles cb0).completed = true ∧
        (runMainA dryRun dateOfMs bundles cb0).persisted =
          some (runMainA dryRun dateOfMs bundles cb0).cacheB) ∧
    (∀ (dryRun : Bool) (dateOfMs : Int → JsDate) (pre : List BundleFs)
        (b : BundleFs) (post : List BundleFs) (cb0 : CacheBundles),
        (∀ x ∈ pre, CleanFs x) → b.hasIndex = true → b.scan = none →
        (runMainA dryRun dateOfMs (pre ++ b :: post) cb0).completed = false ∧
        (runMainA dryRun dateOfMs (pre ++ b :: post) cb0).persisted = none) := by
  constructor
  · intro dryRun dateOfMs bundles cb0 h
    have hab := runBundles_clean dryRun dateOfMs bundles stats0 cb0 h
    constructor <;> simp [runMainA, hab, persistCacheV2]
  · intro dryRun dateOfMs pre b post cb0 h h1 h2
    have hab := runBundles_abort dryRun dateOfMs pre b post stats0 cb0 h h1 h2
    constructor <;> simp [runMainA, hab]

/-- **C2** witness: the two directions evaluated on concrete runs — a healthy
single-bundle run completes and persists; a run whose first bundle directory
is unlistable aborts and persists nothing. -/
theorem c2_witness :
    ((runMainA false utcStub [bGood] []).completed = true ∧
      (runMainA false utcStub [bGood] []).persisted =
        some (runMainA false utcStub [bGood] []).cacheB) ∧
    ((runMainA false utcStub ([] ++ bBadScan :: []) []).completed = false ∧
      (runMainA false utcStub ([] ++ bBadScan :: []) []).persisted = none) :=
  ⟨c2_error_isolation.1 false utcStub [bGood] [] (by decide),
    c2_error_isolation.2 false utcStub [] bBadScan [] [] (by decide) rfl rfl⟩

/-- **C3** (counterexample).  The cache update is not universal as claimed:
when reading the descriptor fails, the source throws before the cache line —
the bundle's cache entry is *not* set (the cache stays empty here) and the
run aborts, even though the claim files this case under the
`Invalid-Descriptor` terminal state. -/
theorem c3_counterexample :
    bBadRead.indexRead = none ∧
    (processBundle false utcStub bBadRead stats0 []).aborted = true ∧
    (processBundle false utcStub bBadRead stats0 []).cacheB = [] := by
  decide

/-- **C3** (corrected).  The cache update is universal over the terminal
states the code can actually reach: whenever the directory is listable and
the descriptor readable and writable, processing sets the bundle's cache
entry to its current inventory exactly once (states NoImages, Unchanged,
Invalid-Descriptor *from a parse failure*, and Updated — in dry-run or not)
and does not abort; a descriptor *read* failure instead aborts the run with
no cache update. -/
theorem c3_cache_update_universal (dryRun : Bool) (dateOfMs : Int → JsDate)
    (b : BundleFs) (s : Stats) (cb : CacheBundles)
    (files : List (JsStr × Option ImageEntry)) (raw : JsStr)
    (h1 : b.hasIndex = true) (h2 : b.scan = some files)
    (h3 : b.indexRead = some raw) (h4 : b.writeOk = true) :
    (processBundle dryRun dateOfMs b s cb).cacheB =
      cacheSet cb b.relDir (scanImagesForBundle files) ∧
    (processBundle dryRun dateOfMs b s cb).aborted = false :=
  processBundle_clean dryRun dateOfMs s cb h1 h2 h3 h4

/-- **C3** witness: the universal cache update evaluated on a concrete
healthy bundle. -/
theorem c3_witness :
    (processBundle false utcStub bGood stats0 []).cacheB =
      cacheSet [] bGood.relDir (scanImagesForBundle
        [("content/galleries/g1/a.jpg".toList, some ⟨0, 5⟩)]) ∧
    (processBundle false utcStub bGood stats0 []).aborted = false :=
  c3_cache_update_universal false utcStub bGood stats0 []
    [("content/galleries/g1/a.jpg".toList, some ⟨0, 5⟩)] rawA rfl rfl rfl rfl

/-- **C10** (confirmed, implicit claim).  Cache entries are never deleted:
whenever a run persists the cache, every key of the loaded cache that is not
the relative directory of a processed bundle keeps exactly its loaded
inventory in the persisted map, and every key present in the loaded cache is
still present — processing only overwrites or adds entries. -/
theorem c10_cache_entries_persist (dryRun : Bool) (dateOfMs : Int → JsDate)
    (bundles : List BundleFs) (cb0 : CacheBundles) (c : CacheBundles)
    (k : JsStr)
    (h : (runMainA dryRun dateOfMs bundles cb0).persisted = some c) :
    (k ∉ bundles.map BundleFs.relDir →
      cacheLookup c k = cacheLookup cb0 k) ∧
    ((cacheLookup cb0 k).isSome = true → (cacheLookup c k).isSome = true) := by
  simp only [runMainA] at h
  by_cases hab : (runBundles dryRun dateOfMs bundles stats0 cb0).aborted = true
  · rw [if_pos hab] at h
    exact absurd h (by simp)
  · rw [if_neg hab] at h
    have hc : c = (runBundles dryRun dateOfMs bundles stats0 cb0).cacheB :=
      (Option.some.inj h).symm
    subst hc
    exact runBundles_cache_lookup dryRun dateOfMs k bundles stats0 cb0

/-- **C10** witness: a cache entry of a renamed/removed bundle (key `"old"`)
survives a real run over one healthy bundle unchanged. -/
theorem c10_witness :
    ("old".toList ∉ [bGood].map BundleFs.relDir →
      cacheLookup ((cacheSet [("old".toList, [])] bGood.relDir
          (scanImagesForBundle
            [("content/galleries/g1/a.jpg".toList, some ⟨0, 5⟩)])))
        "old".toList = cacheLookup [("old".toList, [])] "old".toList) ∧
    ((cacheLookup [("old".toList, [])] "old".toList).isSome = true →
      (cacheLookup ((cacheSet [("old".toList, [])] bGood.relDir
          (scanImagesForBundle
            [("content/galleries/g1/a.jpg".toList, some ⟨0, 5⟩)])))
        "old".toList).isSome = true) :=
  c10_cache_entries_persist false utcStub [bGood] [("old".toList, [])]
    (cacheSet [("old".toList, [])] bGood.relDir
      (scanImagesForBundle
        [("content/galleries/g1/a.jpg".toList, some ⟨0, 5⟩)]))
    "old".toList (by decide)

/-! ## The maximum-mtime fold and the decision rule: C4 -/

theorem foldMax_init_le (l : Inventory) :
    ∀ a : Int, a ≤ l.foldl
      (fun acc e => if e.2.mtimeMs > acc then e.2.mtimeMs else acc) a := by
  induction l with
  | nil => intro a; simp
  | cons e t ih =>
    intro a
    simp only [List.foldl_cons]
    refine le_trans ?_ (ih _)
    split <;> omega

theorem foldMax_mem_le (l : Inventory) :
    ∀ (a : Int) (e : JsStr × ImageEntry), e ∈ l → e.2.mtimeMs ≤
      l.foldl (fun acc x => if x.2.mtimeMs > acc then x.2.mtimeMs else acc) a := by
  induction l with
  | nil => intro a e he; simp at he
  | cons f t ih =>
    intro a e he
    simp only [List.foldl_cons]
    rcases List.mem_cons.1 he with rfl | he
    · refine le_trans ?_ (foldMax_init_le t _)
      split <;> omega
    · exact ih _ e he

theorem foldMax_cases (l : Inventory) :
    ∀ a : Int, l.foldl
        (fun acc e => if e.2.mtimeMs > acc then e.2.mtimeMs else acc) a = a ∨
      l.foldl (fun acc e => if e.2.mtimeMs > acc then e.2.mtimeMs else acc) a
        ∈ l.map (fun e => e.2.mtimeMs) := by
  induction l with
  | nil => intro a; exact Or.inl rfl
  | cons f t ih =>
    intro a
    simp only [List.foldl_cons]
    rcases ih (if f.2.mtimeMs > a then f.2.mtimeMs else a) with hc | hc
    · rw [hc]
      split
      · exact Or.inr (List.mem_map.2 ⟨f, List.mem_cons_self f t, rfl⟩)
      · exact Or.inl rfl
    · exact Or.inr (by simp only [List.map_cons, List.mem_cons]; exact Or.inr hc)

/-- When at least one image has a nonnegative mtime, the 0-seeded fold of
`processBundle` computes the true maximum of the mtimes. -/
theorem maxMtimeFold_spec (inv : Inventory)
    (h : ∃ e ∈ inv, 0 ≤ e.2.mtimeMs) :
    maxMtimeFold inv ∈ inv.map (fun e => e.2.mtimeMs) ∧
      ∀ e ∈ inv, e.2.mtimeMs ≤ maxMtimeFold inv := by
  obtain ⟨e0, he0, h0⟩ := h
  have hle : ∀ e ∈ inv, e.2.mtimeMs ≤ maxMtimeFold inv :=
    fun e he => foldMax_mem_le inv 0 e he
  refine ⟨?_, hle⟩
  rcases foldMax_cases inv 0 with hc | hc
  · have hz : maxMtimeFold inv = 0 := hc
    have h1 : e0.2.mtimeMs ≤ maxMtimeFold inv := hle e0 he0
    have h2 : e0.2.mtimeMs = maxMtimeFold inv := by omega
    rw [← h2]
    exact List.mem_map.2 ⟨e0, he0, rfl⟩
  · exact hc

theorem isNewerISO_eq (newVal currentVal : JsStr) :
    isNewerISO newVal currentVal =
      (currentVal.isEmpty || jsStrLt currentVal newVal) := by
  unfold isNewerISO
  by_cases h : currentVal.isEmpty = true
  · simp [h]
  · simp only [Bool.eq_false_iff.2 h, Bool.false_or, Bool.false_eq_true, if_false]

/-- **C4** (counterexample).  The stated timestamp rule fails when every image
has a negative mtime (a file dated before the epoch): the bundle `bNeg` has a
single image with `mtimeMs = -1`, and its descriptor's `lastmod` already
equals the second-precision rendering of that instant, so the claim's
candidate (the rendering of the maximum mtime) ties with the current value
and predicts no update — yet the code seeds `maxMtimeMs` with `0`, renders
`new Date(0)` and performs an update. -/
theorem c4_counterexample :
    bNeg.scan = some [("content/galleries/g4/a.jpg".toList, some ⟨-1, 5⟩)] ∧
    isNewerISO (formatLocalISO (utcStub (-1)))
      (parseFrontmatter raw1969).currentLastmod = false ∧
    (processBundle false utcStub bNeg stats0 []).stats.updatedBundles = 1 ∧
    (processBundle false utcStub bNeg stats0 []).written ≠ none := by
  decide

/-- **C4** (corrected).  The decision rule of `processBundle` for a bundle
with at least one image and a valid descriptor: the candidate is the
local-ISO rendering of `new Date(m)` where `m` is the 0-seeded maximum of the
image mtimes (which equals the true maximum whenever some image mtime is
nonnegative); the lastmod value is updated iff the current value is empty or
the candidate string is lexicographically greater, and a tie or an earlier
candidate leaves the bundle in the unchanged state — independent of the diff
counts. -/
theorem c4_decision_rule (dryRun : Bool) (dateOfMs : Int → JsDate)
    (b : BundleFs) (s : Stats) (cb : CacheBundles)
    (files : List (JsStr × Option ImageEntry)) (raw : JsStr)
    (h1 : b.hasIndex = true) (h2 : b.scan = some files)
    (h3 : b.indexRead = some raw) (h4 : b.writeOk = true)
    (h5 : scanImagesForBundle files ≠ [])
    (h6 : (parseFrontmatter raw).valid = true) :
    ((processBundle dryRun dateOfMs b s cb).stats.updatedBundles =
      s.updatedBundles + (if isNewerISO
        (formatLocalISO (dateOfMs (maxMtimeFold (scanImagesForBundle files))))
        (parseFrontmatter raw).currentLastmod = true then 1 else 0)) ∧
    ((processBundle dryRun dateOfMs b s cb).stats.unchangedBundles =
      s.unchangedBundles + (if isNewerISO
        (formatLocalISO (dateOfMs (maxMtimeFold (scanImagesForBundle files))))
        (parseFrontmatter raw).currentLastmod = true then 0 else 1)) ∧
    ((processBundle dryRun dateOfMs b s cb).written =
      (if isNewerISO
          (formatLocalISO (dateOfMs (maxMtimeFold (scanImagesForBundle files))))
          (parseFrontmatter raw).currentLastmod = true ∧ dryRun = false then
        some (buildNewContent (parseFrontmatter raw).fmLines
          (parseFrontmatter raw).bodyLines
          (formatLocalISO (dateOfMs (maxMtimeFold (scanImagesForBundle files)))))
       else none)) ∧
    (isNewerISO
        (formatLocalISO (dateOfMs (maxMtimeFold (scanImagesForBundle files))))
        (parseFrontmatter raw).currentLastmod =
      ((parseFrontmatter raw).currentLastmod.isEmpty ||
        jsStrLt (parseFrontmatter raw).currentLastmod
          (formatLocalISO (dateOfMs (maxMtimeFold (scanImagesForBundle files)))))) ∧
    ((∃ e ∈ scanImagesForBundle files, 0 ≤ e.2.mtimeMs) →
      maxMtimeFold (scanImagesForBundle files) ∈
        (scanImagesForBundle files).map (fun e => e.2.mtimeMs) ∧
      ∀ e ∈ scanImagesForBundle files,
        e.2.mtimeMs ≤ maxMtimeFold (scanImagesForBundle files)) := by
  have hempty : ¬((scanImagesForBundle files).isEmpty = true) :=
    fun hc => h5 (List.isEmpty_iff.1 hc)
  rcases b with ⟨rel, hi, sc, ir, wo⟩
  simp only at h1 h2 h3 h4
  subst h1 h2 h3 h4
  refine ⟨?_, ?_, ?_, isNewerISO_eq _ _, fun hex => maxMtimeFold_spec _ hex⟩ <;>
    · simp only [processBundle, Bool.not_true, Bool.false_eq_true, if_false]
      rw [if_neg hempty]
      simp only [h6, Bool.not_true, Bool.false_eq_true, if_false]
      by_cases hnew : isNewerISO
          (formatLocalISO (dateOfMs (maxMtimeFold (scanImagesForBundle files))))
          (parseFrontmatter raw).currentLastmod = true
      · simp only [hnew, Bool.not_true, Bool.false_eq_true, if_false, if_true,
          true_and]
        by_cases hdry : dryRun = true
        · subst hdry
          simp
        · have hdry' : dryRun = false := Bool.eq_false_iff.2 hdry
          subst hdry'
          simp
      · have hnew' : isNewerISO
            (formatLocalISO (dateOfMs (maxMtimeFold (scanImagesForBundle files))))
            (parseFrontmatter raw).currentLastmod = false :=
          Bool.eq_false_iff.2 hnew
        simp [hnew']

/-- **C4** witness: the amended decision rule evaluated on a concrete healthy
bundle whose image mtime is nonnegative. -/
theorem c4_witness :
    (processBundle false utcStub bGood stats0 []).stats.updatedBundles =
      stats0.updatedBundles + (if isNewerISO
        (formatLocalISO (utcStub (maxMtimeFold (scanImagesForBundle
          [("content/galleries/g1/a.jpg".toList, some ⟨0, 5⟩)]))))
        (parseFrontmatter rawA).currentLastmod = true then 1 else 0) :=
  (c4_decision_rule false utcStub bGood stats0 []
    [("content/galleries/g1/a.jpg".toList, some ⟨0, 5⟩)] rawA
    rfl rfl rfl rfl (by decide) (by decide)).1

/-! ## Decimal printing and string order: infrastructure for C5 -/

theorem jsStrLt_irrefl (a : JsStr) : jsStrLt a a = false := by
  induction a with
  | nil => rfl
  | cons c a ih => simp [jsStrLt, lt_irrefl, ih]

theorem jsStrLt_cons_general (x y : Char) (s t : JsStr) :
    jsStrLt (x :: s) (y :: t) =
      (decide (x < y) || (decide (x = y) && jsStrLt s t)) := by
  rcases lt_trichotomy x y with h | h | h
  · simp [jsStrLt, h]
  · subst h
    simp [jsStrLt, lt_irrefl]
  · have h1 : ¬x < y := lt_asymm h
    have h2 : x ≠ y := ne_of_gt h
    simp [jsStrLt, h, h1, h2]

theorem jsStrLt_cons_same (c : Char) (s t : JsStr) :
    jsStrLt (c :: s) (c :: t) = jsStrLt s t := by
  simp [jsStrLt, lt_irrefl]

theorem digitChar_lt_iff {d e : Nat} (hd : d ≤ 9) (he : e ≤ 9) :
    digitChar d < digitChar e ↔ d < e := by
  interval_cases d <;> interval_cases e <;> decide

theorem digitChar_eq_iff {d e : Nat} (hd : d ≤ 9) (he : e ≤ 9) :
    digitChar d = digitChar e ↔ d = e := by
  interval_cases d <;> interval_cases e <;> decide

theorem natReprCore_eq (n : Nat) : ∀ f, n < f → natReprCore f n = natRepr n := by
  induction n using Nat.strong_induction_on with
  | _ n ih =>
    intro f hf
    cases f with
    | zero => omega
    | succ f =>
      by_cases h10 : n < 10
      · rw [natRepr]
        simp [natReprCore, h10]
      · have hd : n / 10 < n := Nat.div_lt_self (by omega) (by omega)
        rw [natRepr]
        simp only [natReprCore, h10, if_false]
        rw [ih (n / 10) hd f (by omega), ih (n / 10) hd n (by omega)]

theorem natRepr_lt10 {n : Nat} (h : n < 10) : natRepr n = [digitChar n] := by
  rw [natRepr]
  simp [natReprCore, h]

theorem natRepr_step {n : Nat} (h : 10 ≤ n) :
    natRepr n = natRepr (n / 10) ++ [digitChar (n % 10)] := by
  conv =>
    lhs
    rw [natRepr]
  simp only [natReprCore, show ¬n < 10 by omega, if_false]
  rw [natReprCore_eq (n / 10) n (by
    exact Nat.div_lt_self (by omega) (by omega))]

theorem natRepr4 {y : Nat} (h1 : 1000 ≤ y) (h2 : y ≤ 9999) :
    natRepr y = [digitChar (y / 1000), digitChar (y / 100 % 10),
      digitChar (y / 10 % 10), digitChar (y % 10)] := by
  have e1 : y / 10 / 10 = y / 100 := by omega
  have e2 : y / 100 / 10 = y / 1000 := by omega
  have e3 : y / 10 % 10 = y / 10 % 10 := rfl
  rw [natRepr_step (by omega), natRepr_step (by omega : 10 ≤ y / 10),
    e1, natRepr_step (by omega : 10 ≤ y / 100), e2,
    natRepr_lt10 (by omega : y / 1000 < 10)]
  simp

theorem jsPad2_eq {n : Nat} (h : n ≤ 99) :
    jsPad2 n = [digitChar (n / 10), digitChar (n % 10)] := by
  by_cases h10 : n < 10
  · rw [jsPad2, natRepr_lt10 h10]
    have hd : n / 10 = 0 := by omega
    have hm : n % 10 = n := by omega
    simp only [List.length_singleton, if_pos (by omega : 1 < 2), hd, hm]
    rfl
  · rw [jsPad2, natRepr_step (by omega), natRepr_lt10 (by omega : n / 10 < 10)]
    simp

theorem jsIntRepr_nonneg {i : Int} (h : 0 ≤ i) :
    jsIntRepr i = natRepr i.toNat := by
  rw [jsIntRepr, if_neg (by omega)]

theorem digitsLt (u : List Nat) : ∀ (v : List Nat) (s t : JsStr),
    u.length = v.length → (∀ x ∈ u, x ≤ 9) → (∀ x ∈ v, x ≤ 9) →
    jsStrLt (u.map digitChar ++ s) (v.map digitChar ++ t) =
      (lexLtNat u v || (decide (u = v) && jsStrLt s t)) := by
  induction u with
  | nil =>
    intro v s t hlen _ _
    have hv : v = [] := List.length_eq_zero.1 hlen.symm
    subst hv
    simp [lexLtNat]
  | cons x u ih =>
    intro v s t hlen hu hv
    cases v with
    | nil => simp at hlen
    | cons y v =>
      simp only [List.map_cons, List.cons_append]
      rw [jsStrLt_cons_general,
        ih v s t (by simpa using hlen) (fun z hz => hu z (by simp [hz]))
          (fun z hz => hv z (by simp [hz]))]
      have hx : x ≤ 9 := hu x (by simp)
      have hy : y ≤ 9 := hv y (by simp)
      rw [show decide (digitChar x < digitChar y) = decide (x < y) from
        decide_eq_decide.2 (digitChar_lt_iff hx hy)]
      rw [show decide (digitChar x = digitChar y) = decide (x = y) from
        decide_eq_decide.2 (digitChar_eq_iff hx hy)]
      rcases Nat.lt_trichotomy x y with h | h | h
      · simp [lexLtNat, h, Nat.ne_of_lt h]
      · subst h
        simp [lexLtNat, Nat.lt_irrefl]
      · have h1 : ¬x < y := by omega
        have h2 : x ≠ y := by omega
        simp [lexLtNat, h, h1, h2]

theorem lexLtNat2 (a b : Nat) :
    lexLtNat [a / 10, a % 10] [b / 10, b % 10] = decide (a < b) := by
  simp only [lexLtNat]
  split_ifs <;> first
    | exact (decide_eq_true (by omega)).symm
    | exact (decide_eq_false (by omega)).symm

theorem lexLtNat4 (a b : Nat) :
    lexLtNat [a / 1000, a / 100 % 10, a / 10 % 10, a % 10]
      [b / 1000, b / 100 % 10, b / 10 % 10, b % 10] = decide (a < b) := by
  simp only [lexLtNat]
  split_ifs <;> first
    | exact (decide_eq_true (by omega)).symm
    | exact (decide_eq_false (by omega)).symm

theorem listEq2_iff (a b : Nat) :
    ([a / 10, a % 10] = [b / 10, b % 10]) ↔ a = b := by
  simp only [List.cons.injEq, and_true]
  omega

theorem listEq4_iff (a b : Nat) :
    ([a / 1000, a / 100 % 10, a / 10 % 10, a % 10] =
      [b / 1000, b / 100 % 10, b / 10 % 10, b % 10]) ↔ a = b := by
  simp only [List.cons.injEq, and_true]
  omega

theorem fieldLt2 (a b : Nat) (s t : JsStr) (ha : a ≤ 99) (hb : b ≤ 99) :
    jsStrLt (jsPad2 a ++ s) (jsPad2 b ++ t) =
      (decide (a < b) || (decide (a = b) && jsStrLt s t)) := by
  rw [jsPad2_eq ha, jsPad2_eq hb]
  have hd := digitsLt [a / 10, a % 10] [b / 10, b % 10] s t rfl
    (by intro x hx
        simp only [List.mem_cons, List.not_mem_nil, or_false] at hx
        rcases hx with rfl | rfl <;> omega)
    (by intro x hx
        simp only [List.mem_cons, List.not_mem_nil, or_false] at hx
        rcases hx with rfl | rfl <;> omega)
  simp only [List.map_cons, List.map_nil] at hd
  rw [hd, lexLtNat2,
    show decide ([a / 10, a % 10] = [b / 10, b % 10]) = decide (a = b) from
      decide_eq_decide.2 (listEq2_iff a b)]

theorem fieldLt4 (a b : Nat) (s t : JsStr) (ha1 : 1000 ≤ a) (ha2 : a ≤ 9999)
    (hb1 : 1000 ≤ b) (hb2 : b ≤ 9999) :
    jsStrLt (natRepr a ++ s) (natRepr b ++ t) =
      (decide (a < b) || (decide (a = b) && jsStrLt s t)) := by
  rw [natRepr4 ha1 ha2, natRepr4 hb1 hb2]
  have hd := digitsLt [a / 1000, a / 100 % 10, a / 10 % 10, a % 10]
    [b / 1000, b / 100 % 10, b / 10 % 10, b % 10] s t rfl
    (by intro x hx
        simp only [List.mem_cons, List.not_mem_nil, or_false] at hx
        rcases hx with rfl | rfl | rfl | rfl <;> omega)
    (by intro x hx
        simp only [List.mem_cons, List.not_mem_nil, or_false] at hx
        rcases hx with rfl | rfl | rfl | rfl <;> omega)
  simp only [List.map_cons, List.map_nil] at hd
  rw [hd, lexLtNat4,
    show decide ([a / 1000, a / 100 % 10, a / 10 % 10, a % 10] =
        [b / 1000, b / 100 % 10, b / 10 % 10, b % 10]) = decide (a = b) from
      decide_eq_decide.2 (listEq4_iff a b)]

/-! ## Timestamp formatting order: C5 -/

/-- **C5** (counterexample).  The formatting is *not* order-preserving over
all instants: two readings of the same second that differ only in
milliseconds (same UTC offset) are chronologically ordered, yet
`formatLocalISO` prints them identically (second precision), so the formatted
string of the earlier instant is not lexicographically less. -/
theorem c5_counterexample :
    (⟨2025, 0, 1, 0, 0, 0, 0, 0⟩ : JsDate).timezoneOffset =
      (⟨2025, 0, 1, 0, 0, 0, 500, 0⟩ : JsDate).timezoneOffset ∧
    chronoBefore ⟨2025, 0, 1, 0, 0, 0, 0, 0⟩ ⟨2025, 0, 1, 0, 0, 0, 500, 0⟩
      = true ∧
    jsStrLt (formatLocalISO ⟨2025, 0, 1, 0, 0, 0, 0, 0⟩)
      (formatLocalISO ⟨2025, 0, 1, 0, 0, 0, 500, 0⟩) = false := by
  decide

/-- **C5** (corrected).  The timestamp formatting is order-preserving at the
precision it prints: for any two `Date` readings that carry the same UTC
offset, agree on milliseconds (second precision), and have four-digit years
with components in calendar range, the formatted string of the first is
lexicographically less than that of the second exactly when the first instant
is chronologically before the second. -/
theorem c5_format_order (d1 d2 : JsDate)
    (hoff : d1.timezoneOffset = d2.timezoneOffset)
    (hms : d1.milliseconds = d2.milliseconds)
    (h1 : InRangeDate d1) (h2 : InRangeDate d2) :
    jsStrLt (formatLocalISO d1) (formatLocalISO d2) = chronoBefore d1 d2 := by
  obtain ⟨ha1, ha2, ha3, ha4, ha5, ha6, ha7⟩ := h1
  obtain ⟨hb1, hb2, hb3, hb4, hb5, hb6, hb7⟩ := h2
  simp only [formatLocalISO]
  rw [hoff]
  rw [jsIntRepr_nonneg (show (0 : Int) ≤ d1.fullYear by omega),
    jsIntRepr_nonneg (show (0 : Int) ≤ d2.fullYear by omega)]
  rw [fieldLt4 _ _ _ _ (by omega) (by omega) (by omega) (by omega)]
  rw [jsStrLt_cons_same]
  rw [fieldLt2 _ _ _ _ (by omega) (by omega)]
  rw [jsStrLt_cons_same]
  rw [fieldLt2 _ _ _ _ (by omega) (by omega)]
  rw [jsStrLt_cons_same]
  rw [fieldLt2 _ _ _ _ (by omega) (by omega)]
  rw [jsStrLt_cons_same]
  rw [fieldLt2 _ _ _ _ (by omega) (by omega)]
  rw [jsStrLt_cons_same]
  rw [fieldLt2 _ _ _ _ (by omega) (by omega)]
  rw [jsStrLt_irrefl]
  simp only [chronoBefore]
  by_cases hY : d1.fullYear = d2.fullYear
  · have hYn : d1.fullYear.toNat = d2.fullYear.toNat := by rw [hY]
    simp only [hYn, hY, ne_eq, not_true_eq_false, if_false,
      lt_self_iff_false, decide_False, Bool.false_or, decide_True,
      Bool.true_and]
    by_cases hM : d1.monthIdx = d2.monthIdx
    · simp only [hM, ne_eq, not_true_eq_false, if_false, lt_self_iff_false,
        decide_False, Bool.false_or, decide_True, Bool.true_and]
      by_cases hD : d1.dayOfMonth = d2.dayOfMonth
      · simp only [hD, ne_eq, not_true_eq_false, if_false, lt_self_iff_false,
          decide_False, Bool.false_or, decide_True, Bool.true_and]
        by_cases hH : d1.hours = d2.hours
        · simp only [hH, ne_eq, not_true_eq_false, if_false,
            lt_self_iff_false, decide_False, Bool.false_or, decide_True,
            Bool.true_and]
          by_cases hMi : d1.minutes = d2.minutes
          · simp only [hMi, ne_eq, not_true_eq_false, if_false,
              lt_self_iff_false, decide_False, Bool.false_or, decide_True,
              Bool.true_and]
            by_cases hS : d1.seconds = d2.seconds
            · simp only [hS, ne_eq, not_true_eq_false, if_false,
                lt_self_iff_false, decide_False, Bool.false_or, decide_True,
                Bool.true_and, Bool.and_false, hms]
            · have e2 : decide (d1.seconds = d2.seconds) = false :=
                decide_eq_false hS
              simp [hS, e2]
          · have e2 : decide (d1.minutes = d2.minutes) = false :=
              decide_eq_false hMi
            simp [hMi, e2]
        · have e2 : decide (d1.hours = d2.hours) = false := decide_eq_false hH
          simp [hH, e2]
      · have e2 : decide (d1.dayOfMonth = d2.dayOfMonth) = false :=
          decide_eq_false hD
        simp [hD, e2]
    · have e1 : decide (d1.monthIdx + 1 < d2.monthIdx + 1) =
          decide (d1.monthIdx < d2.monthIdx) := decide_eq_decide.2 (by omega)
      have e2 : decide (d1.monthIdx + 1 = d2.monthIdx + 1) = false :=
        decide_eq_false (by omega)
      rw [e1, e2, if_pos hM]
      simp
  · have e1 : decide (d1.fullYear.toNat < d2.fullYear.toNat) =
        decide (d1.fullYear < d2.fullYear) := decide_eq_decide.2 (by omega)
    have e2 : decide (d1.fullYear.toNat = d2.fullYear.toNat) = false :=
      decide_eq_false (by omega)
    rw [e1, e2, if_pos hY]
    simp

/-- **C5** witness: two concrete readings one second apart, same offset,
compared both ways. -/
theorem c5_witness :
    jsStrLt (formatLocalISO ⟨1970, 0, 1, 0, 0, 0, 0, 0⟩)
        (formatLocalISO ⟨1970, 0, 1, 0, 0, 1, 0, 0⟩) =
      chronoBefore ⟨1970, 0, 1, 0, 0, 0, 0, 0⟩ ⟨1970, 0, 1, 0, 0, 1, 0, 0⟩ :=
  c5_format_order _ _ rfl rfl (by decide) (by decide)

end HugoLastmod
